import Mathlib

/-!
Shallow embedding of the email-Cleaner core (src/constants.ts, src/types.ts:
validateEmail, extractName, processFiles, downloadCSV's projection step).

JavaScript strings are modelled as lists of Unicode code points (`List Nat`).
`String.prototype.toLowerCase` is modelled on the ASCII letters A-Z (the only
characters the rule tables and claims exercise); `String.prototype.trim`
removes the JS whitespace code points from both ends.  CSV cell values are
strings (PapaParse with `header: true` and no `dynamicTyping` yields string
cells), so row values are also `List Nat`.  JS objects built by literals with
a trailing spread (`{ a: x, ...row }`) are modelled by `objFromEntries`:
a later entry with an existing key overwrites the value in place.
-/

namespace EmailCleaner

/-- A JavaScript string: its list of Unicode code points. -/
abbrev JStr := List Nat

/-- Embed a Lean string literal as a list of code points (for concrete inputs). -/
def str (s : String) : JStr := s.data.map Char.toNat

/-- `String.prototype.toLowerCase`, restricted to ASCII A-Z (65..90 ↦ +32). -/
def lowerCp (c : Nat) : Nat := if 65 ≤ c ∧ c ≤ 90 then c + 32 else c

/-- `s.toLowerCase()`. -/
def jsToLower (s : JStr) : JStr := s.map lowerCp

/-- JS WhiteSpace / LineTerminator code points relevant to `trim`. -/
def isWs (c : Nat) : Bool :=
  c == 9 || c == 10 || c == 11 || c == 12 || c == 13 || c == 32 ||
  c == 160 || c == 0x2028 || c == 0x2029 || c == 0xFEFF

/-- Remove trailing whitespace (`trimEnd` part of `trim`). -/
def jsTrimEnd (s : JStr) : JStr := (s.reverse.dropWhile isWs).reverse

/-- `s.trim()`: strip whitespace from both ends. -/
def jsTrim (s : JStr) : JStr := jsTrimEnd (s.dropWhile isWs)

/-- `s.toLowerCase().trim()` — the normalization used throughout the code. -/
def jsNorm (s : JStr) : JStr := jsTrim (jsToLower s)

/-- `String.prototype.includes(pat)`: substring occurrence test. -/
def containsSub (pat : JStr) : JStr → Bool
  | [] => pat.isEmpty
  | c :: t => pat.isPrefixOf (c :: t) || containsSub pat t

/-- `String.prototype.split(sep)` for a one-character separator. -/
def splitOnCp (sep : Nat) : JStr → List JStr
  | [] => [[]]
  | c :: t =>
    if c = sep then [] :: splitOnCp sep t
    else
      match splitOnCp sep t with
      | [] => [[c]]
      | h :: r => (c :: h) :: r

/-- src/types.ts `EmailStatus` (a TS string enum). -/
inductive EmailStatus where
  | VALID
  | INVALID_FORMAT
  | DISPOSABLE
  | ROLE_BASED
  | TYPO_DOMAIN
  | DUPLICATE
  | MISSING_MX
deriving DecidableEq, Repr

/-- The string value of each `EmailStatus` enum member. -/
def statusStr : EmailStatus → JStr
  | .VALID => str "VALID"
  | .INVALID_FORMAT => str "INVALID_FORMAT"
  | .DISPOSABLE => str "DISPOSABLE"
  | .ROLE_BASED => str "ROLE_BASED"
  | .TYPO_DOMAIN => str "TYPO_DOMAIN"
  | .DUPLICATE => str "DUPLICATE"
  | .MISSING_MX => str "MISSING_MX"

/-- src/constants.ts `TYPO_DOMAINS`. -/
def TYPO_DOMAINS : List JStr :=
  [str "gmal.com", str "gmil.com", str "gail.com", str "gmail.co",
   str "yaho.com", str "yahooo.com", str "yhoo.com",
   str "hotmal.com", str "hotmai.com", str "hotmil.com",
   str "outlok.com", str "outlook.co",
   str "test.com", str "example.com", str "xyz.com", str "abc.com",
   str "no-reply.com"]

/-- src/constants.ts `DISPOSABLE_DOMAINS`. -/
def DISPOSABLE_DOMAINS : List JStr :=
  [str "tempmail.com", str "throwawaymail.com", str "mailinator.com",
   str "guerrillamail.com", str "10minutemail.com", str "yopmail.com",
   str "getnada.com", str "temp-mail.org", str "fakeinbox.com",
   str "burnermail.io"]

/-- src/constants.ts `ROLE_PREFIXES`. -/
def ROLE_PREFIXES : List JStr :=
  [str "admin", str "support", str "info", str "sales", str "marketing",
   str "contact", str "office", str "billing", str "help", str "noreply",
   str "no-reply", str "webmaster", str "hr", str "jobs", str "enquiries",
   str "media", str "press"]

/-- Character class `[a-zA-Z]`. -/
def isAlphaCp (c : Nat) : Bool := (65 ≤ c && c ≤ 90) || (97 ≤ c && c ≤ 122)

/-- Character class `[0-9]`. -/
def isDigitCp (c : Nat) : Bool := 48 ≤ c && c ≤ 57

/-- Character class `[a-zA-Z0-9._%+-]` (the regex's local part). -/
def isLocalChar (c : Nat) : Bool :=
  isAlphaCp c || isDigitCp c || c == 46 || c == 95 || c == 37 || c == 43 || c == 45

/-- Character class `[a-zA-Z0-9.-]` (the regex's domain part). -/
def isDomainChar (c : Nat) : Bool := isAlphaCp c || isDigitCp c || c == 46 || c == 45

/-- src/constants.ts `EMAIL_REGEX.test`:
`^[a-zA-Z0-9._%+-]+@[a-zA-Z0-9.-]+\.[a-zA-Z]{2,}$`.
Neither character class contains `@`, so a match has exactly one `@`:
the string splits at `@` into a non-empty local part over the local class and
a domain.  In the domain, `[a-zA-Z0-9.-]+\.[a-zA-Z]{2,}` matches iff the
segment after the *last* dot (the `{2,}` run contains no dot) is at least two
letters, and the part before that dot is non-empty over the domain class
(dots themselves belong to the domain class, so this holds iff every
dot-separated segment before the last is over the class, with at least one
character or one further dot present). -/
def emailRegexTest (s : JStr) : Bool :=
  match splitOnCp 64 s with
  | [l, d] =>
    decide (l ≠ []) && l.all isLocalChar &&
    (match (splitOnCp 46 d).reverse with
     | t :: a :: rest =>
       (decide (a ≠ []) || decide (rest ≠ [])) && a.all isDomainChar &&
       rest.all (fun seg => seg.all isDomainChar) &&
       t.all isAlphaCp && decide (2 ≤ t.length)
     | _ => false)
  | _ => false

/-- `lowerEmail.split('@')[0]`. -/
def localPartOf (s : JStr) : JStr := (splitOnCp 64 s).headD []

/-- `lowerEmail.split('@')[1]`. -/
def domainOf (s : JStr) : JStr := ((splitOnCp 64 s).drop 1).headD []

/-- src/types.ts `validateEmail`. -/
def validateEmail (email : JStr) : EmailStatus :=
  if email = [] ∨ 64 ∉ email then .INVALID_FORMAT
  else
    let lowerEmail := jsNorm email
    if emailRegexTest lowerEmail = false then .INVALID_FORMAT
    else
      let localPart := localPartOf lowerEmail
      let domain := domainOf lowerEmail
      if domain ∈ TYPO_DOMAINS then .TYPO_DOMAIN
      else if domain ∈ DISPOSABLE_DOMAINS then .DISPOSABLE
      else if localPart ∈ ROLE_PREFIXES then .ROLE_BASED
      else .VALID

/-- A parsed CSV row / JS object: an association list of (key, value), keys
distinct and in insertion order (PapaParse yields distinct headers). -/
abbrev Row := List (JStr × JStr)

/-- JS property read `r[k]` (keys of a well-formed object are distinct). -/
def rowGet (r : Row) (k : JStr) : Option JStr :=
  match r with
  | [] => none
  | (k', v) :: t => if k' = k then some v else rowGet t k

/-- JS property write `r[k] = v`: overwrite in place if the key exists,
append otherwise. -/
def objSet (r : Row) (k v : JStr) : Row :=
  if k ∈ r.map Prod.fst then r.map (fun p => if p.1 = k then (p.1, v) else p)
  else r ++ [(k, v)]

/-- Build a JS object from an object literal's entry sequence (a literal with
spreads: later entries overwrite earlier ones in place). -/
def objFromEntries (l : List (JStr × JStr)) : Row :=
  l.foldl (fun r p => objSet r p.1 p.2) []

/-- src/types.ts `findEmailKey` (inside `processFiles`):
`keys.find(k => k.toLowerCase().includes('email')) || null`. -/
def findEmailKey (row : Row) : Option JStr :=
  (row.map Prod.fst).find? (fun k => containsSub (str "email") (jsToLower k))

/-- First header whose lowercased form equals `target`
(`keys[lowerKeys.indexOf(target)]` guarded by `lowerKeys.includes(target)`). -/
def keyWithLower (row : Row) (target : JStr) : Option JStr :=
  (row.map Prod.fst).find? (fun k => jsToLower k == target)

/-- `lowerKeys.findIndex(k => k === 'first name' || k === 'firstname')`,
returned as the header at that index. -/
def firstNameKey (row : Row) : Option JStr :=
  (row.map Prod.fst).find?
    (fun k => jsToLower k == str "first name" || jsToLower k == str "firstname")

/-- `lowerKeys.findIndex(k => k === 'last name' || k === 'lastname')`,
returned as the header at that index. -/
def lastNameKey (row : Row) : Option JStr :=
  (row.map Prod.fst).find?
    (fun k => jsToLower k == str "last name" || jsToLower k == str "lastname")

/-- `keys.find` for the fuzzy fallback of `extractName`: the lowercased header
contains "name" but neither "email" nor "file". -/
def fuzzyNameKey (row : Row) : Option JStr :=
  (row.map Prod.fst).find?
    (fun k => containsSub (str "name") (jsToLower k) &&
              !containsSub (str "email") (jsToLower k) &&
              !containsSub (str "file") (jsToLower k))

/-- src/types.ts `extractName`.  `row[key] || ''` is `(rowGet …).getD []`
(an absent property and an empty string both yield `''`). -/
def extractName (row : Row) : JStr :=
  match keyWithLower row (str "name") with
  | some k => (rowGet row k).getD []
  | none =>
  match keyWithLower row (str "full name") with
  | some k => (rowGet row k).getD []
  | none =>
  match keyWithLower row (str "fullname") with
  | some k => (rowGet row k).getD []
  | none =>
  match firstNameKey row with
  | some fk =>
    (match lastNameKey row with
     | some lk =>
       jsTrim (((rowGet row fk).getD []) ++ 32 :: ((rowGet row lk).getD []))
     | none => (rowGet row fk).getD [])
  | none =>
  match fuzzyNameKey row with
  | some k => (rowGet row k).getD []
  | none => []

/-- src/types.ts `CleaningStats` (the breakdown is a map from status to count;
`processFiles` initializes every key to 0). -/
structure CleaningStats where
  totalProcessed : Nat
  totalValid : Nat
  totalDuplicates : Nat
  invalidBreakdown : EmailStatus → Nat

/-- The `stats` object as initialized in `processFiles`. -/
def initStats : CleaningStats :=
  { totalProcessed := 0, totalValid := 0, totalDuplicates := 0,
    invalidBreakdown := fun _ => 0 }

/-- The per-row "Update Stats" block of `processFiles`
(`totalProcessed++` happens at the top of the loop body). -/
def updateStats (s : CleaningStats) (status : EmailStatus) : CleaningStats :=
  { totalProcessed := s.totalProcessed + 1
    totalValid := if status = .VALID then s.totalValid + 1 else s.totalValid
    totalDuplicates :=
      if status = .VALID then s.totalDuplicates
      else if status = .DUPLICATE then s.totalDuplicates + 1
      else s.totalDuplicates
    invalidBreakdown :=
      if status = .VALID then s.invalidBreakdown
      else fun st =>
        if st = status then s.invalidBreakdown st + 1 else s.invalidBreakdown st }

/-- Sum of all values of the breakdown map (all seven keys are initialized). -/
def sumBreakdown (b : EmailStatus → Nat) : Nat :=
  b .VALID + b .INVALID_FORMAT + b .DISPOSABLE + b .ROLE_BASED +
  b .TYPO_DOMAIN + b .DUPLICATE + b .MISSING_MX

/-- `const rawEmail = emailKey ? String(row[emailKey]) : ''`. -/
def rowRawEmail (row : Row) : JStr :=
  match findEmailKey row with
  | some k => (rowGet row k).getD []
  | none => []

/-- The per-row status decision of `processFiles`' loop: empty check on the
raw value, then dedup-set lookup on the normalized value, then `validateEmail`. -/
def rowStatus (uniq : List JStr) (row : Row) : EmailStatus :=
  let rawEmail := rowRawEmail row
  if rawEmail = [] then .INVALID_FORMAT
  else if jsNorm rawEmail ∈ uniq then .DUPLICATE
  else validateEmail (jsNorm rawEmail)

/-- The dedup set (`uniqueEmails`) after the loop body: the normalized email
is added exactly when the row was neither empty-raw nor a duplicate. -/
def nextUnique (uniq : List JStr) (row : Row) : List JStr :=
  let rawEmail := rowRawEmail row
  if rawEmail = [] then uniq
  else if jsNorm rawEmail ∈ uniq then uniq
  else jsNorm rawEmail :: uniq

/-- The record pushed onto `processedRecords`:
`{ original, email, name, status, sourceFile, ...row }` — the spread of the
raw row comes last, so a row key equal to one of the five computed keys
overwrites the computed value. -/
def emitRecord (uniq : List JStr) (row : Row) : Row :=
  objFromEntries
    ([(str "original", rowRawEmail row),
      (str "email", jsNorm (rowRawEmail row)),
      (str "name", extractName row),
      (str "status", statusStr (rowStatus uniq row)),
      (str "sourceFile", (rowGet row (str "_sourceFile")).getD [])] ++ row)

/-- Mutable state of `processFiles`' cleaning loop. -/
structure PipelineState where
  uniqueEmails : List JStr
  stats : CleaningStats
  processedRecords : List Row

/-- One iteration of the "Iteration & Cleaning" loop of `processFiles`. -/
def processRow (st : PipelineState) (row : Row) : PipelineState :=
  { uniqueEmails := nextUnique st.uniqueEmails row
    stats := updateStats st.stats (rowStatus st.uniqueEmails row)
    processedRecords := st.processedRecords ++ [emitRecord st.uniqueEmails row] }

/-- src/types.ts `processFiles`, from the consolidated `allRecords` list on
(file ingestion concatenates parsed rows in file order; rows carry their
`_sourceFile` tag as an ordinary entry). -/
def processFiles (rows : List Row) : PipelineState :=
  rows.foldl processRow ⟨[], initStats, []⟩

/-- `result.validRecords`: records whose `status` property is `VALID`. -/
def validRecords (rows : List Row) : List Row :=
  (processFiles rows).processedRecords.filter
    (fun r => rowGet r (str "status") == some (str "VALID"))

/-- `result.invalidRecords`: records whose `status` property is not `VALID`. -/
def invalidRecords (rows : List Row) : List Row :=
  (processFiles rows).processedRecords.filter
    (fun r => !(rowGet r (str "status") == some (str "VALID")))

/-- The header remap of `downloadCSV`: `email`→"Email", `name`→"Name",
`status`→"Status", all other column names unchanged (the three source `if`s
have mutually exclusive conditions). -/
def remapHeader (col : JStr) : JStr :=
  if col = str "email" then str "Email"
  else if col = str "name" then str "Name"
  else if col = str "status" then str "Status"
  else col

/-- One projected record of `downloadCSV`: `filtered[header] = record[col] || ''`. -/
def projectRecord (cols : List JStr) (r : Row) : Row :=
  objFromEntries (cols.map (fun col => (remapHeader col, (rowGet r col).getD [])))

/-- The data-shaping part of src/types.ts `downloadCSV` (`exportData`): project
every record when a non-empty column list is given, else pass records through.
The serialization and DOM download below it are I/O and out of scope. -/
def exportRows (data : List Row) (cols : List JStr) : List Row :=
  if 0 < cols.length then data.map (projectRecord cols) else data

/-! Helper lemmas about the JS string primitives. -/

lemma lowerCp_idem (c : Nat) : lowerCp (lowerCp c) = lowerCp c := by
  unfold lowerCp
  split
  · rename_i h
    rw [if_neg (by omega)]
  · rfl

lemma dropWhile_length_le (p : Nat → Bool) (l : JStr) :
    (l.dropWhile p).length ≤ l.length := by
  induction l with
  | nil => simp
  | cons c t ih =>
    by_cases h : p c = true
    · rw [List.dropWhile_cons, if_pos h]
      exact Nat.le_trans ih (Nat.le_succ _)
    · rw [List.dropWhile_cons, if_neg h]

lemma isWs_lowerCp (c : Nat) : isWs (lowerCp c) = isWs c := by
  unfold lowerCp
  split
  · rename_i h
    have h1 : isWs (c + 32) = false := by
      simp only [isWs, Bool.or_eq_false_iff, beq_eq_false_iff_ne, ne_eq]
      omega
    have h2 : isWs c = false := by
      simp only [isWs, Bool.or_eq_false_iff, beq_eq_false_iff_ne, ne_eq]
      omega
    rw [h1, h2]
  · rfl

lemma jsToLower_idem (s : JStr) : jsToLower (jsToLower s) = jsToLower s := by
  simp only [jsToLower, List.map_map]
  rw [show lowerCp ∘ lowerCp = lowerCp from funext lowerCp_idem]

lemma dropWhile_map_lowerCp (s : JStr) :
    (s.map lowerCp).dropWhile isWs = (s.dropWhile isWs).map lowerCp := by
  induction s with
  | nil => rfl
  | cons c t ih =>
    simp only [List.map_cons, List.dropWhile_cons, isWs_lowerCp]
    by_cases h : isWs c = true
    · simp [h, ih]
    · simp [h]

lemma jsToLower_jsTrimEnd (s : JStr) :
    jsToLower (jsTrimEnd s) = jsTrimEnd (jsToLower s) := by
  simp only [jsTrimEnd, jsToLower]
  rw [← List.map_reverse, dropWhile_map_lowerCp, List.map_reverse]

lemma jsToLower_jsTrim (s : JStr) : jsToLower (jsTrim s) = jsTrim (jsToLower s) := by
  simp only [jsTrim]
  rw [jsToLower_jsTrimEnd]
  rw [show jsToLower (s.dropWhile isWs) = (jsToLower s).dropWhile isWs by
        simp only [jsToLower]; rw [dropWhile_map_lowerCp]]

lemma dropWhile_dropWhile (p : Nat → Bool) (l : JStr) :
    (l.dropWhile p).dropWhile p = l.dropWhile p := by
  induction l with
  | nil => rfl
  | cons c t ih =>
    by_cases h : p c = true
    · simp [List.dropWhile_cons, h, ih]
    · simp [List.dropWhile_cons, h]

lemma exists_append_dropWhile (p : Nat → Bool) (l : JStr) :
    ∃ w, l = w ++ l.dropWhile p := by
  induction l with
  | nil => exact ⟨[], rfl⟩
  | cons c t ih =>
    by_cases h : p c = true
    · obtain ⟨w, hw⟩ := ih
      exact ⟨c :: w, by simp [List.dropWhile_cons, h]; exact hw⟩
    · exact ⟨[], by simp [List.dropWhile_cons, h]⟩

lemma dropWhile_eq_self_of_append {p : Nat → Bool} (s r : JStr)
    (h : (s ++ r).dropWhile p = s ++ r) : s.dropWhile p = s := by
  cases s with
  | nil => rfl
  | cons a s' =>
    have ha : p a = false := by
      by_contra hcon
      have ha' : p a = true := by
        revert hcon; cases p a <;> simp
      rw [List.cons_append, List.dropWhile_cons, if_pos ha'] at h
      have hle := dropWhile_length_le p (s' ++ r)
      rw [h] at hle
      simp at hle
    simp [List.dropWhile_cons, ha]

lemma exists_append_jsTrimEnd (u : JStr) : ∃ w, u = jsTrimEnd u ++ w := by
  obtain ⟨w, hw⟩ := exists_append_dropWhile isWs u.reverse
  refine ⟨w.reverse, ?_⟩
  have := congrArg List.reverse hw
  simpa [jsTrimEnd] using this

lemma jsTrimEnd_idem (t : JStr) : jsTrimEnd (jsTrimEnd t) = jsTrimEnd t := by
  unfold jsTrimEnd
  rw [List.reverse_reverse, dropWhile_dropWhile]

lemma jsTrim_idem (s : JStr) : jsTrim (jsTrim s) = jsTrim s := by
  simp only [jsTrim]
  obtain ⟨w, hw⟩ := exists_append_jsTrimEnd (s.dropWhile isWs)
  have hself : (jsTrimEnd (s.dropWhile isWs)).dropWhile isWs
      = jsTrimEnd (s.dropWhile isWs) := by
    apply dropWhile_eq_self_of_append _ w
    rw [← hw]
    exact dropWhile_dropWhile isWs s
  rw [hself, jsTrimEnd_idem]

lemma jsNorm_idem (s : JStr) : jsNorm (jsNorm s) = jsNorm s := by
  simp only [jsNorm]
  rw [jsToLower_jsTrim, jsToLower_idem, jsTrim_idem]

lemma mem_dropWhile_of_mem {p : Nat → Bool} {x : Nat} {l : JStr}
    (hx : x ∈ l) (hpx : p x = false) : x ∈ l.dropWhile p := by
  induction l with
  | nil => cases hx
  | cons c t ih =>
    by_cases h : p c = true
    · rw [List.dropWhile_cons, if_pos h]
      rcases List.mem_cons.mp hx with rfl | hx'
      · rw [h] at hpx; cases hpx
      · exact ih hx'
    · rw [List.dropWhile_cons, if_neg h]
      exact hx

lemma mem_of_mem_dropWhile {p : Nat → Bool} {x : Nat} {l : JStr}
    (hx : x ∈ l.dropWhile p) : x ∈ l := by
  obtain ⟨w, hw⟩ := exists_append_dropWhile p l
  rw [hw]
  exact List.mem_append_right w hx

lemma mem64_jsToLower (s : JStr) : 64 ∈ jsToLower s ↔ 64 ∈ s := by
  simp only [jsToLower, List.mem_map]
  constructor
  · rintro ⟨a, ha, hEq⟩
    have ha64 : a = 64 := by
      simp only [lowerCp] at hEq
      split at hEq <;> omega
    rwa [ha64] at ha
  · intro h
    exact ⟨64, h, by decide⟩

lemma mem64_jsTrimEnd (s : JStr) : 64 ∈ jsTrimEnd s ↔ 64 ∈ s := by
  simp only [jsTrimEnd, List.mem_reverse]
  constructor
  · intro h
    exact List.mem_reverse.mp (mem_of_mem_dropWhile h)
  · intro h
    exact mem_dropWhile_of_mem (List.mem_reverse.mpr h) (by decide)

lemma mem64_jsTrim (s : JStr) : 64 ∈ jsTrim s ↔ 64 ∈ s := by
  simp only [jsTrim]
  rw [mem64_jsTrimEnd]
  constructor
  · exact mem_of_mem_dropWhile
  · intro h
    exact mem_dropWhile_of_mem h (by decide)

lemma mem64_jsNorm (s : JStr) : 64 ∈ jsNorm s ↔ 64 ∈ s := by
  simp only [jsNorm]
  rw [mem64_jsTrim, mem64_jsToLower]

/-! Helper lemmas about the statistics counters. -/

/-- The C4 invariant on the stats object. -/
def StatsInv (s : CleaningStats) : Prop :=
  s.totalProcessed = s.totalValid + sumBreakdown s.invalidBreakdown ∧
  s.invalidBreakdown .VALID = 0

lemma updateStats_statsInv {s : CleaningStats} (st : EmailStatus)
    (h : StatsInv s) : StatsInv (updateStats s st) := by
  obtain ⟨h1, h2⟩ := h
  simp only [sumBreakdown] at h1
  cases st <;> constructor <;> simp [updateStats, StatsInv, sumBreakdown] <;> omega

lemma foldl_processRow_statsInv (rows : List Row) :
    ∀ st : PipelineState, StatsInv st.stats →
      StatsInv ((rows.foldl processRow st).stats) := by
  induction rows with
  | nil => intro st h; exact h
  | cons r t ih =>
    intro st h
    exact ih _ (updateStats_statsInv _ h)

/-! Helper lemmas about JS object construction. -/

lemma foldl_objSet_append (l : List (JStr × JStr)) :
    ∀ acc : Row, (∀ q ∈ l, q.1 ∉ acc.map Prod.fst) → (l.map Prod.fst).Nodup →
      l.foldl (fun r p => objSet r p.1 p.2) acc = acc ++ l := by
  induction l with
  | nil => intro acc _ _; simp
  | cons q t ih =>
    intro acc hdisj hnd
    obtain ⟨k, v⟩ := q
    simp only [List.foldl_cons]
    have hk : k ∉ acc.map Prod.fst := hdisj (k, v) (List.mem_cons_self _ _)
    have hset : objSet acc k v = acc ++ [(k, v)] := by
      unfold objSet
      rw [if_neg hk]
    rw [hset, ih (acc ++ [(k, v)]) ?_ (List.nodup_cons.mp hnd).2]
    · simp
    · intro p hp
      simp only [List.map_append, List.map_cons, List.map_nil, List.mem_append,
        List.mem_singleton]
      rintro (hmem | hEq)
      · exact hdisj p (List.mem_cons_of_mem _ hp) hmem
      · have : p.1 ∈ t.map Prod.fst := List.mem_map_of_mem Prod.fst hp
        have hknd : k ∉ t.map Prod.fst := by
          simpa using (List.nodup_cons.mp hnd).1
        rw [hEq] at this
        exact hknd this

lemma objFromEntries_nodup (l : List (JStr × JStr))
    (h : (l.map Prod.fst).Nodup) : objFromEntries l = l := by
  unfold objFromEntries
  simpa using foldl_objSet_append l [] (by simp) h

/-- Modelled from the spec: C7's reading of name strategy (a) together with
its tie-break rule — the first header in the record's column order whose
lowercased form is exactly "name", "full name" or "fullname".  Used only to
exhibit where the code departs from that reading. -/
def specNameStrategyA (row : Row) : Option JStr :=
  (row.map Prod.fst).find?
    (fun k => jsToLower k == str "name" || jsToLower k == str "full name" ||
              jsToLower k == str "fullname")

/-! The claims. -/

/-- C1: `validateEmail` applies the membership checks in strict order
typo-domain, then disposable-domain, then role-prefix, first match winning;
in particular `admin@gmal.com`, whose domain is in the typo set and whose
local part is in the role-prefix set, classifies as `TYPO_DOMAIN`, not
`ROLE_BASED`. -/
theorem C1_classifier_priority :
    (∀ s : JStr, emailRegexTest (jsNorm s) = true → s ≠ [] → 64 ∈ s →
        domainOf (jsNorm s) ∈ TYPO_DOMAINS → validateEmail s = .TYPO_DOMAIN)
    ∧ (∀ s : JStr, emailRegexTest (jsNorm s) = true → s ≠ [] → 64 ∈ s →
        domainOf (jsNorm s) ∉ TYPO_DOMAINS →
        domainOf (jsNorm s) ∈ DISPOSABLE_DOMAINS → validateEmail s = .DISPOSABLE)
    ∧ (∀ s : JStr, emailRegexTest (jsNorm s) = true → s ≠ [] → 64 ∈ s →
        domainOf (jsNorm s) ∉ TYPO_DOMAINS →
        domainOf (jsNorm s) ∉ DISPOSABLE_DOMAINS →
        localPartOf (jsNorm s) ∈ ROLE_PREFIXES → validateEmail s = .ROLE_BASED)
    ∧ str "admin" ∈ ROLE_PREFIXES
    ∧ str "gmal.com" ∈ TYPO_DOMAINS
    ∧ validateEmail (str "admin@gmal.com") = .TYPO_DOMAIN := by
  refine ⟨?_, ?_, ?_, by decide, by decide, by decide⟩
  · intro s h1 h2 h3 h4
    simp only [validateEmail]
    rw [if_neg (by simp [h2, h3]), if_neg (by simp [h1]), if_pos h4]
  · intro s h1 h2 h3 h4 h5
    simp only [validateEmail]
    rw [if_neg (by simp [h2, h3]), if_neg (by simp [h1]), if_neg h4, if_pos h5]
  · intro s h1 h2 h3 h4 h5 h6
    simp only [validateEmail]
    rw [if_neg (by simp [h2, h3]), if_neg (by simp [h1]), if_neg h4, if_neg h5,
      if_pos h6]

/-- Witness for C1 at a concrete input whose domain is a typo domain and whose
local part is a role prefix. -/
theorem C1_classifier_priority_witness :
    validateEmail (str "sales@yahooo.com") = .TYPO_DOMAIN :=
  C1_classifier_priority.1 (str "sales@yahooo.com") (by decide) (by decide)
    (by decide) (by decide)

/-- C2: deduplication is first-seen and case-insensitive over the whole run:
a record that reaches the dedup check (non-empty raw value) and whose
normalized email is already in the set is classified `DUPLICATE`; a record
that reaches the classifier has its normalized email in the set afterwards
regardless of the classifier's verdict; and the run on
`["a@x.com", "A@X.COM", "a@x.com"]` assigns `[VALID, DUPLICATE, DUPLICATE]`. -/
theorem C2_dedup_first_seen :
    (∀ (uniq : List JStr) (row : Row), rowRawEmail row ≠ [] →
        jsNorm (rowRawEmail row) ∈ uniq → rowStatus uniq row = .DUPLICATE)
    ∧ (∀ (uniq : List JStr) (row : Row), rowRawEmail row ≠ [] →
        jsNorm (rowRawEmail row) ∈ nextUnique uniq row)
    ∧ ((processFiles [[(str "email", str "a@x.com")],
                      [(str "email", str "A@X.COM")],
                      [(str "email", str "a@x.com")]]).processedRecords.map
          (fun r => rowGet r (str "status"))
        = [some (str "VALID"), some (str "DUPLICATE"), some (str "DUPLICATE")]) := by
  refine ⟨?_, ?_, by decide⟩
  · intro uniq row h1 h2
    simp only [rowStatus]
    rw [if_neg h1, if_pos h2]
  · intro uniq row h1
    simp only [nextUnique]
    rw [if_neg h1]
    by_cases h2 : jsNorm (rowRawEmail row) ∈ uniq
    · rw [if_pos h2]
      exact h2
    · rw [if_neg h2]
      exact List.mem_cons_self _ _

/-- Witness for C2: a concrete later record whose normalized email was
already seen (under a different case) is classified `DUPLICATE`. -/
theorem C2_dedup_first_seen_witness :
    rowStatus [str "a@x.com"] [(str "email", str "A@X.COM")] = .DUPLICATE :=
  C2_dedup_first_seen.1 [str "a@x.com"] [(str "email", str "A@X.COM")]
    (by decide) (by decide)

/-- C3 (failing input): the record is pushed as
`{ original, email, …, ...row }` with the raw row spread last, so a column
literally named `email` overwrites the computed normalized value: for the
single row `{"email": "  Foo@BAR.com  "}` the emitted record's `email`
property is the raw string, not the lowercase-trim of `original`. -/
theorem C3_email_overwritten_by_spread :
    rowGet ((processFiles [[(str "email", str "  Foo@BAR.com  ")]]).processedRecords.headD [])
        (str "original") = some (str "  Foo@BAR.com  ")
    ∧ rowGet ((processFiles [[(str "email", str "  Foo@BAR.com  ")]]).processedRecords.headD [])
        (str "email") = some (str "  Foo@BAR.com  ")
    ∧ jsNorm (str "  Foo@BAR.com  ") = str "foo@bar.com"
    ∧ rowGet ((processFiles [[(str "email", str "  Foo@BAR.com  ")]]).processedRecords.headD [])
        (str "email") ≠ some (jsNorm (str "  Foo@BAR.com  ")) := by
  refine ⟨by decide, by decide, by decide, by decide⟩

/-- C4: after every run, `totalProcessed` equals `totalValid` plus the sum of
all breakdown values, and the breakdown's `VALID` key is never incremented. -/
theorem C4_stats_conservation (rows : List Row) :
    (processFiles rows).stats.totalProcessed
      = (processFiles rows).stats.totalValid
        + sumBreakdown (processFiles rows).stats.invalidBreakdown
    ∧ (processFiles rows).stats.invalidBreakdown .VALID = 0 := by
  have h0 : StatsInv initStats := ⟨rfl, rfl⟩
  exact foldl_processRow_statsInv rows ⟨[], initStats, []⟩ h0

/-- C5 (failing input): enum-status containment fails for a row carrying a
column literally named `status` — the trailing spread overwrites the computed
status, so the emitted record's `status` property is the row's arbitrary
string, not one of the seven enum values.  The `MISSING_MX` half of the claim
does hold on this run (its breakdown entry stays 0 and the computed status is
`VALID`). -/
theorem C5_status_overwritten_by_spread :
    ((processFiles [[(str "email", str "a@x.com"), (str "status", str "bogus")]]).processedRecords.map
        (fun r => rowGet r (str "status")) = [some (str "bogus")])
    ∧ (∀ e ∈ [str "VALID", str "INVALID_FORMAT", str "DUPLICATE", str "DISPOSABLE",
              str "ROLE_BASED", str "TYPO_DOMAIN", str "MISSING_MX"],
        str "bogus" ≠ e)
    ∧ rowStatus [] [(str "email", str "a@x.com"), (str "status", str "bogus")] = .VALID
    ∧ (processFiles [[(str "email", str "a@x.com"), (str "status", str "bogus")]]).stats.invalidBreakdown
        .MISSING_MX = 0 := by
  refine ⟨by decide, by decide, by decide, by decide⟩

/-- C6 (failing input): a row with no email-like header is classified
`INVALID_FORMAT` and leaves the dedup set untouched, and two such rows both
receive `INVALID_FORMAT` — but the claim's `original == ""` part fails when
the row carries a column literally named `original`, which the trailing
spread copies over the computed empty string. -/
theorem C6_original_overwritten_by_spread :
    ((processFiles [[(str "original", str "xyz")], [(str "other", str "w")]]).processedRecords.map
        (fun r => rowGet r (str "original")) = [some (str "xyz"), some []])
    ∧ ((processFiles [[(str "original", str "xyz")], [(str "other", str "w")]]).processedRecords.map
        (fun r => rowGet r (str "status"))
        = [some (str "INVALID_FORMAT"), some (str "INVALID_FORMAT")])
    ∧ (processFiles [[(str "original", str "xyz")], [(str "other", str "w")]]).uniqueEmails = []
    ∧ str "xyz" ≠ ([] : JStr) := by
  refine ⟨by decide, by decide, by decide, by decide⟩

/-- C7 counterexample: for a record with headers `Full Name` then `name`, the
claim's first-occurrence tie-break inside strategy (a) picks `Full Name`
(value "Alice"), but the code checks the exact candidates in the fixed order
`name`, `full name`, `fullname` and returns "Bob". -/
theorem C7_counterexample :
    specNameStrategyA [(str "Full Name", str "Alice"), (str "name", str "Bob")]
      = some (str "Full Name")
    ∧ (rowGet [(str "Full Name", str "Alice"), (str "name", str "Bob")]
        (str "Full Name")).getD [] = str "Alice"
    ∧ extractName [(str "Full Name", str "Alice"), (str "name", str "Bob")]
      = str "Bob"
    ∧ str "Bob" ≠ str "Alice" := by
  refine ⟨by decide, by decide, by decide, by decide⟩

/-- C7 (amended): the resolver tries, in order: exact `name`, exact
`full name`, exact `fullname` (fixed candidate priority), then a
first-name/last-name pair space-joined and trimmed, then first name alone,
then the fuzzy fallback, first success winning and `""` otherwise; first
occurrence in column order breaks ties only among headers matching the same
candidate (and among the spelling variants within the first and last name
strategies and the fuzzy strategy). -/
theorem C7_extractName_strategy_order :
    (∀ (row : Row) (k : JStr), keyWithLower row (str "name") = some k →
        extractName row = (rowGet row k).getD [])
    ∧ (∀ (row : Row) (k : JStr), keyWithLower row (str "name") = none →
        keyWithLower row (str "full name") = some k →
        extractName row = (rowGet row k).getD [])
    ∧ (∀ (row : Row) (k : JStr), keyWithLower row (str "name") = none →
        keyWithLower row (str "full name") = none →
        keyWithLower row (str "fullname") = some k →
        extractName row = (rowGet row k).getD [])
    ∧ (∀ (row : Row) (fk lk : JStr), keyWithLower row (str "name") = none →
        keyWithLower row (str "full name") = none →
        keyWithLower row (str "fullname") = none →
        firstNameKey row = some fk → lastNameKey row = some lk →
        extractName row
          = jsTrim (((rowGet row fk).getD []) ++ 32 :: ((rowGet row lk).getD [])))
    ∧ (∀ (row : Row) (fk : JStr), keyWithLower row (str "name") = none →
        keyWithLower row (str "full name") = none →
        keyWithLower row (str "fullname") = none →
        firstNameKey row = some fk → lastNameKey row = none →
        extractName row = (rowGet row fk).getD [])
    ∧ (∀ (row : Row) (k : JStr), keyWithLower row (str "name") = none →
        keyWithLower row (str "full name") = none →
        keyWithLower row (str "fullname") = none →
        firstNameKey row = none → fuzzyNameKey row = some k →
        extractName row = (rowGet row k).getD [])
    ∧ (∀ row : Row, keyWithLower row (str "name") = none →
        keyWithLower row (str "full name") = none →
        keyWithLower row (str "fullname") = none →
        firstNameKey row = none → fuzzyNameKey row = none →
        extractName row = []) := by
  refine ⟨?_, ?_, ?_, ?_, ?_, ?_, ?_⟩
  · intro row k h1
    simp only [extractName, h1]
  · intro row k h1 h2
    simp only [extractName, h1, h2]
  · intro row k h1 h2 h3
    simp only [extractName, h1, h2, h3]
  · intro row fk lk h1 h2 h3 h4 h5
    simp only [extractName, h1, h2, h3, h4, h5]
  · intro row fk h1 h2 h3 h4 h5
    simp only [extractName, h1, h2, h3, h4, h5]
  · intro row k h1 h2 h3 h4 h5
    simp only [extractName, h1, h2, h3, h4, h5]
  · intro row h1 h2 h3 h4 h5
    simp only [extractName, h1, h2, h3, h4, h5]

/-- Witness for the amended C7 at a concrete record resolved by strategy (a). -/
theorem C7_extractName_strategy_order_witness :
    extractName [(str "NAME", str "Zoe")]
      = (rowGet [(str "NAME", str "Zoe")] (str "NAME")).getD [] :=
  C7_extractName_strategy_order.1 [(str "NAME", str "Zoe")] (str "NAME")
    (by decide)

/-- C8: the classifier independently normalizes: classifying `s` and
classifying the lowercase-trimmed form of `s` yield the same status; in
particular `"  Foo@BAR.com  "` and `"foo@bar.com"` receive the same status. -/
theorem C8_normalization_invariance :
    (∀ s : JStr, validateEmail (jsNorm s) = validateEmail s)
    ∧ validateEmail (str "  Foo@BAR.com  ") = validateEmail (str "foo@bar.com")
    ∧ validateEmail (str "  Foo@BAR.com  ") = .VALID := by
  refine ⟨?_, by decide, by decide⟩
  intro s
  by_cases h2 : 64 ∈ s
  · have hs : s ≠ [] := by
      rintro rfl
      cases h2
    have hn : 64 ∈ jsNorm s := (mem64_jsNorm s).mpr h2
    have hnn : jsNorm s ≠ [] := List.ne_nil_of_mem hn
    simp only [validateEmail]
    rw [jsNorm_idem]
    rw [if_neg (show ¬(jsNorm s = [] ∨ 64 ∉ jsNorm s) by simp [hnn, hn]),
      if_neg (show ¬(s = [] ∨ 64 ∉ s) by simp [hs, h2])]
  · have hn : 64 ∉ jsNorm s := fun h => h2 ((mem64_jsNorm s).mp h)
    simp only [validateEmail]
    rw [if_pos (Or.inr hn), if_pos (Or.inr h2)]

/-- C9: the export projection emits one row per record with exactly the
listed fields in order, remapping `email`/`name`/`status` to their display
headers and substituting `""` for missing fields; projecting a pipeline
record with `["email"]` yields the single column `Email` holding the
normalized address. -/
theorem C9_export_projection :
    (∀ (data : List Row) (cols : List JStr), cols ≠ [] →
        (exportRows data cols).length = data.length)
    ∧ (∀ (cols : List JStr) (r : Row), (cols.map remapHeader).Nodup →
        projectRecord cols r
          = cols.map (fun c => (remapHeader c, (rowGet r c).getD [])))
    ∧ (exportRows
          (processFiles [[(str "Email Address", str " John@Site.COM "),
                          (str "city", str "Paris")]]).processedRecords
          [str "email"]
        = [[(str "Email", str "john@site.com")]]) := by
  refine ⟨?_, ?_, by decide⟩
  · intro data cols h
    simp only [exportRows]
    rw [if_pos (List.length_pos.mpr h)]
    exact List.length_map data _
  · intro cols r h
    unfold projectRecord
    apply objFromEntries_nodup
    simpa [List.map_map, Function.comp] using h

/-- Witness for C9: projecting two fields of the empty record yields exactly
the two remapped columns in order with empty values. -/
theorem C9_export_projection_witness :
    projectRecord [str "email", str "status"] []
      = [str "email", str "status"].map
          (fun c => (remapHeader c, (rowGet [] c).getD [])) :=
  C9_export_projection.2.1 [str "email", str "status"] [] (by decide)

/-- C10: a whitespace-only email cell is not short-circuited as empty (the
empty-check inspects the raw value); its normalized form `""` is classified
(`INVALID_FORMAT`) and added to the dedup set, so a second whitespace-only
row is classified `DUPLICATE`. -/
theorem C10_whitespace_email_dedup :
    ((processFiles [[(str "email", str "   ")], [(str "email", str "  ")]]).processedRecords.map
        (fun r => rowGet r (str "status"))
      = [some (str "INVALID_FORMAT"), some (str "DUPLICATE")])
    ∧ (processFiles [[(str "email", str "   ")], [(str "email", str "  ")]]).uniqueEmails
      = [[]]
    ∧ rowRawEmail [(str "email", str "   ")] ≠ []
    ∧ jsNorm (rowRawEmail [(str "email", str "   ")]) = []
    ∧ validateEmail [] = .INVALID_FORMAT := by
  refine ⟨by decide, by decide, by decide, by decide, by decide⟩

end EmailCleaner
